import Mathlib

/-!
# Verification of the TradeMachine core (`app.py`)

Shallow embedding of the TradeMachine fantasy-sports application:
player scoring (`calculate_score`), trade evaluation (`evaluate_trade`),
player rankings (`display_player_rankings`), name normalization
(`normalize_player_name`) and the dataframe merge step (`read_data`).

Modelling conventions:
* numeric cell values (`Regular`, `Projection`, scores, totals, the 0.80
  approval threshold) are rationals;
* the current week (produced by `calculate_week` from the wall clock) is an
  integer passed explicitly to the functions that consume it;
* Streamlit side effects are abstracted: an evaluation that completes
  produces a value, one that is aborted (`st.warning` / `st.error` /
  an uncaught pandas exception) produces an `Except.error`;
* pandas dataframes are modelled by a column-name list together with
  positionally aligned rows of cells.
-/

/-- A row of the merged player table: identity plus performance and injury
fields (`Player_Name`, `Regular`, `Projection`, `Injury`, `Status`). -/
structure PlayerRec where
  player_name : String
  regular : ℚ
  projection : ℚ
  injury : String
  status : String
deriving DecidableEq

/-- The scoring body of `calculate_score` (`app.py` 96-100): floor `Regular`
and `Projection` at 2, interpolate between projection and regular by week,
then floor the result at 2. -/
def score_of_record (week : ℤ) (p : PlayerRec) : ℚ :=
  let regular := max 2 p.regular
  let projection := max 2 p.projection
  let score := (((20 : ℚ) - (week : ℚ)) * projection) / 20 + ((week : ℚ) * regular) / 20
  max 2 score

/-- The row lookup `data[data['Player_Name'] == player_name].iloc[0]`
(`app.py` 95): first row whose `Player_Name` equals the given name, if any
(`none` models the `IndexError` raised on an empty selection). -/
def findPlayer (data : List PlayerRec) (player_name : String) : Option PlayerRec :=
  (data.filter (fun r => r.player_name == player_name)).head?

/-- `calculate_score` (`app.py` 90-100): look the player up and score the
found record. -/
def calculate_score (data : List PlayerRec) (week : ℤ) (player_name : String) :
    Option ℚ :=
  (findPlayer data player_name).map (score_of_record week)

/-- Rounding to two decimal places, modelling `Series.round(2)` in
`display_player_rankings` (`app.py` 238).  Implemented as round-half-up;
the tie-breaking direction at exact half-cents (floats round half to even)
is immaterial to the properties proved below. -/
def round2 (q : ℚ) : ℚ :=
  ((round (100 * q) : ℤ) : ℚ) / 100

/-- The per-row ranking score of `display_player_rankings` (`app.py` 235-238):
the interpolation applied to the *unfloored* `Regular` and `Projection`
values, rounded to two decimals.  No floor of 2 is applied anywhere. -/
def rankScore (week : ℤ) (p : PlayerRec) : ℚ :=
  round2 ((((20 : ℚ) - (week : ℚ)) * p.projection) / 20 + ((week : ℚ) * p.regular) / 20)

/-- Insertion step of the descending sort: `x` is placed before the first
element whose key is strictly smaller, so elements with equal keys keep
their original relative order. -/
def insertDesc {α : Type} (key : α → ℚ) (x : α) : List α → List α
  | [] => [x]
  | y :: ys => if key y < key x then x :: y :: ys else y :: insertDesc key x ys

/-- Descending sort by a rational key, modelling
`DataFrame.sort_values(by=..., ascending=False)` (`app.py` 244).  The
source uses pandas' default `kind='quicksort'`, which guarantees the
descending key order but NOT any particular order among tied keys; this
insertion scheme is one admissible tie order, and no theorem below relies
on how it breaks ties. -/
def sortDesc {α : Type} (key : α → ℚ) : List α → List α
  | [] => []
  | x :: xs => insertDesc key x (sortDesc key xs)

/-- Attach 1-based positions, modelling `sorted_data.index = index + 1`
(`app.py` 247). -/
def withRanks {α : Type} : ℕ → List α → List (ℕ × α)
  | _, [] => []
  | n, x :: xs => (n, x) :: withRanks (n + 1) xs

/-- The ranking computation of `display_player_rankings` (`app.py` 221-251):
score every row with the unfloored interpolation rounded to two decimals,
sort descending by that value, and attach 1-based ranks by sorted
position. -/
def display_player_rankings (week : ℤ) (data : List PlayerRec) :
    List (ℕ × PlayerRec × ℚ) :=
  withRanks 1 (sortDesc (fun e => e.2) (data.map (fun r => (r, rankScore week r))))

/-- The per-side scoring loop of `evaluate_trade` (`app.py` 115-128 and
134-147): score each selected name in order; a failed lookup aborts the
whole loop (the uncaught `IndexError`), modelled as `none`. -/
def scoresFor (data : List PlayerRec) (week : ℤ) : List String → Option (List ℚ)
  | [] => some []
  | n :: ns =>
    match calculate_score data week n, scoresFor data week ns with
    | some s, some rest => some (s :: rest)
    | _, _ => none

/-- The outcome of a completed trade evaluation: the two (possibly padded)
side totals, the fairness ratio, and the approval verdict
(`app.py` 166-204). -/
structure TradeResult where
  team1_total : ℚ
  team2_total : ℚ
  trade_ratio : ℚ
  approved : Bool
deriving DecidableEq

/-- A side total after the empty-slot padding of `app.py` 149-164: when this
side selected fewer players than the other, fillers of score `2.00` are
added until the lengths match, and they are included in the total. -/
def paddedTotal (scores : List ℚ) (own other : ℕ) : ℚ :=
  if own < other then scores.sum + 2 * ((other - own : ℕ) : ℚ) else scores.sum

/-- `evaluate_trade` (`app.py` 104-204).  The current week is passed
explicitly (the source obtains it from `calculate_week()`).  A lookup
failure aborts the evaluation with no result; after padding, a zero side
total aborts with the "Both teams must have at least one player" warning;
otherwise the ratio `min(t1/t2, t2/t1)` and the verdict `ratio >= 0.80` are
produced. -/
def evaluate_trade (data : List PlayerRec) (week : ℤ)
    (team1_players team2_players : List String) : Except String TradeResult :=
  match scoresFor data week team1_players, scoresFor data week team2_players with
  | some team1_scores, some team2_scores =>
    let team1_total := paddedTotal team1_scores team1_players.length team2_players.length
    let team2_total := paddedTotal team2_scores team2_players.length team1_players.length
    if team1_total = 0 ∨ team2_total = 0 then
      Except.error "Both teams must have at least one player."
    else
      let trade_ratio := min (team1_total / team2_total) (team2_total / team1_total)
      Except.ok
        { team1_total := team1_total, team2_total := team2_total,
          trade_ratio := trade_ratio,
          approved := decide ((4 : ℚ) / 5 ≤ trade_ratio) }
  | _, _ => Except.error "IndexError: single positional indexer is out-of-bounds"

/-- The submission gate of `main` (`app.py` 364-373): reject overlapping
selections, reject two empty selections, otherwise evaluate the trade. -/
def mainEvaluate (data : List PlayerRec) (week : ℤ)
    (team1_selected team2_selected : List String) : Except String TradeResult :=
  if team1_selected.filter (fun n => team2_selected.contains n) ≠ [] then
    Except.error "player(s) selected for both teams"
  else if team1_selected = [] ∧ team2_selected = [] then
    Except.error "Please select players for both teams to evaluate a trade."
  else
    evaluate_trade data week team1_selected team2_selected

/-- C1/C4/C5/C7/C10 example table: five players, each with
`Regular = Projection = 10`, so each scores exactly `10` at week 10. -/
def exData : List PlayerRec :=
  [⟨"a", 10, 10, "Healthy", "Active"⟩,
   ⟨"b", 10, 10, "Healthy", "Active"⟩,
   ⟨"c", 10, 10, "Healthy", "Active"⟩,
   ⟨"d", 10, 10, "Healthy", "Active"⟩,
   ⟨"e", 10, 10, "Healthy", "Active"⟩]

/-- The character class `[a-z\s]` of `normalize_player_name` (`app.py` 23):
a character survives the removal step iff it is a lowercase latin letter or
whitespace (Python's Unicode `\s` is modelled by ASCII whitespace; the
difference is immaterial to the properties proved below). -/
def keepChar (c : Char) : Bool :=
  (decide ('a' ≤ c) && decide (c ≤ 'z')) || c.isWhitespace

/-- Helper for `collapseWs`: the boolean records whether the previous kept
character came from a whitespace run (in which case further whitespace is
absorbed into the already-emitted single space). -/
def collapseAux : Bool → List Char → List Char
  | _, [] => []
  | prevWs, c :: cs =>
    if c.isWhitespace then
      if prevWs then collapseAux true cs else ' ' :: collapseAux true cs
    else c :: collapseAux false cs

/-- `re.sub(r'\s+', ' ', name)` (`app.py` 26): every maximal run of
whitespace characters is replaced by a single space. -/
def collapseWs (l : List Char) : List Char := collapseAux false l

/-- `.strip()` (`app.py` 26): drop leading whitespace, then drop trailing
whitespace. -/
def trimWs (l : List Char) : List Char :=
  ((l.dropWhile Char.isWhitespace).reverse.dropWhile Char.isWhitespace).reverse

/-- `normalize_player_name` (`app.py` 11-28): lowercase (modelled
per-character, which covers the latin range the later filter keeps),
Unicode-NFKD normalize, keep only `[a-z\s]`, collapse whitespace runs and
strip.  The NFKD step (`unicodedata.normalize('NFKD', name)`) is an arbitrary
string-to-string map from the point of view of the remaining steps, so it
is taken as an explicit function argument; every property proved below
holds for any choice of it. -/
def normalize_player_name (nfkd : String → String) (player_name : String) : String :=
  let name := String.mk (player_name.toList.map Char.toLower)
  let name := nfkd name
  let name := name.toList.filter keepChar
  String.mk (trimWs (collapseWs name))

/-- A dataframe cell: a number, a string, or a missing value (`NaN`). -/
inductive Val where
  | num (q : ℚ)
  | str (s : String)
  | null
deriving DecidableEq

/-- A pandas dataframe: named columns and positionally aligned rows. -/
structure DF where
  cols : List String
  rows : List (List Val)
deriving DecidableEq

/-- Well-formedness: every row has exactly one cell per column. -/
def DF.wf (df : DF) : Prop := ∀ row ∈ df.rows, row.length = df.cols.length

instance (df : DF) : Decidable df.wf := by
  unfold DF.wf; infer_instance

/-- Read the cell of column `c` in a row (first matching column;
missing column reads as `NaN`). -/
def getVal (cols : List String) (row : List Val) (c : String) : Val :=
  match (cols.zip row).find? (fun p => p.1 == c) with
  | some p => p.2
  | none => Val.null

/-- Remove from a row every cell whose column is named `c`. -/
def dropNamed (cols : List String) (row : List Val) (c : String) : List Val :=
  ((cols.zip row).filter (fun p => p.1 != c)).map (fun p => p.2)

/-- The right-hand columns contributed by a left merge: when the two key
names coincide pandas keeps a single (left-positioned) key column, so the
right key column is excluded. -/
def mergeRCols (r : DF) (lk rk : String) : List String :=
  if lk = rk then r.cols.filter (fun c => c != rk) else r.cols

/-- The right-hand cells contributed by a matched right row (the right key
cell is excluded when the key names coincide). -/
def mergeRPart (r : DF) (lk rk : String) (rrow : List Val) : List Val :=
  if lk = rk then dropNamed r.cols rrow rk else rrow

/-- `pd.merge(l, r, left_on := lk, right_on := rk, how := 'left')`
(`app.py` 40/42): each left row is joined with every right row whose `rk`
cell equals its `lk` cell, or padded with `NaN` cells when no right row
matches.  When the two key names coincide pandas keeps a single key column
(the left one); column-name collisions outside the keys (pandas suffixing)
are not modelled, and the theorems below assume the other column names are
disjoint. -/
def mergeLeft (l r : DF) (lk rk : String) : DF :=
  { cols := l.cols ++ mergeRCols r lk rk
    rows := l.rows.flatMap fun lrow =>
      match r.rows.filter
          (fun rrow => getVal r.cols rrow rk == getVal l.cols lrow lk) with
      | [] => [lrow ++ (mergeRCols r lk rk).map (fun _ => Val.null)]
      | ms => ms.map (fun rrow => lrow ++ mergeRPart r lk rk rrow) }

/-- Apply a column-aware cell transformation to a row (cells are paired
with their column names positionally). -/
def mapRow (cols : List String) (g : String → Val → Val) (row : List Val) : List Val :=
  (cols.zip row).map (fun p => g p.1 p.2)

/-- The row transformation of `fillna`: a `NaN` cell in column `c` becomes
`d`, every other cell is kept. -/
def fillRow (cols : List String) (c : String) (d : Val) (row : List Val) : List Val :=
  mapRow cols (fun c' v => if c' = c ∧ v = Val.null then d else v) row

/-- `df[c] = df[c].fillna(d)` (`app.py` 45-46): replace every `NaN` in the
column(s) named `c` by the default `d`. -/
def fillCol (df : DF) (c : String) (d : Val) : DF :=
  { cols := df.cols
    rows := df.rows.map (fillRow df.cols c d) }

/-- `df.drop(columns=[c])` (`app.py` 50): remove every column named `c`. -/
def dropCol (df : DF) (c : String) : DF :=
  { cols := df.cols.filter (fun c' => c' != c)
    rows := df.rows.map (fun row => dropNamed df.cols row c) }

/-- `df[c] = vals` (`app.py` 235/241): overwrite the column named `c` when
it exists, otherwise append it as a new last column. -/
def setCol (df : DF) (c : String) (vals : List Val) : DF :=
  if c ∈ df.cols then
    { cols := df.cols
      rows := (df.rows.zip vals).map fun p =>
        mapRow df.cols (fun c' v => if c' = c then p.2 else v) p.1 }
  else
    { cols := df.cols ++ [c]
      rows := (df.rows.zip vals).map fun p => p.1 ++ [p.2] }

/-- The joined table of `read_data` (`app.py` 40/42). -/
def mergedDF (lk : String) (dfScores dfInjuries : DF) : DF :=
  mergeLeft dfScores dfInjuries lk "Player"

/-- The joined table after the two `fillna` steps (`app.py` 45-46). -/
def filledDF (lk : String) (dfScores dfInjuries : DF) : DF :=
  fillCol (fillCol (mergedDF lk dfScores dfInjuries) "Injury" (Val.str "Healthy"))
    "Status" (Val.str "Active")

/-- The merge pipeline shared by both branches of `read_data`: join on the
given left key, fill `Injury`/`Status` defaults, then drop any remaining
`Player` column (`app.py` 49-50).  Reading a missing `Injury`/`Status`
column would raise a `KeyError` (caught by `read_data`, which surfaces the
error and returns no merged table), modelled as `Except.error`. -/
def readDataWith (lk : String) (dfScores dfInjuries : DF) : Except String DF :=
  if "Player" ∈ dfInjuries.cols then
    if "Injury" ∈ (mergedDF lk dfScores dfInjuries).cols then
      if "Status" ∈ (mergedDF lk dfScores dfInjuries).cols then
        if "Player" ∈ (filledDF lk dfScores dfInjuries).cols then
          Except.ok (dropCol (filledDF lk dfScores dfInjuries) "Player")
        else
          Except.ok (filledDF lk dfScores dfInjuries)
      else Except.error "KeyError: Status"
    else Except.error "KeyError: Injury"
  else Except.error "KeyError: Player (injury table)"

/-- `read_data` (`app.py` 30-57): prefer `Player_Name` as the left key,
fall back to `Player`; with neither present the merge raises a `KeyError`
which `read_data` catches, surfaces via `st.error`, and returns no merged
table (modelled as `Except.error`). -/
def read_data (dfScores dfInjuries : DF) : Except String DF :=
  if "Player_Name" ∈ dfScores.cols then readDataWith "Player_Name" dfScores dfInjuries
  else if "Player" ∈ dfScores.cols then readDataWith "Player" dfScores dfInjuries
  else Except.error "KeyError: Player (scores table)"

/-- The column list of a successful merge (used to state facts about
`read_data` outputs on concrete tables). -/
def okCols : Except String DF → List String
  | Except.ok df => df.cols
  | Except.error _ => []

/-- The values of column `c`, row by row. -/
def colVals (df : DF) (c : String) : List Val :=
  df.rows.map (fun row => getVal df.cols row c)

/-- The unfloored, unrounded interpolation of `display_player_rankings`
(`app.py` 236) read off a dataframe row; a non-numeric `Regular` or
`Projection` yields `NaN`. -/
def rowRankScore (week : ℤ) (cols : List String) (row : List Val) : Val :=
  match getVal cols row "Regular", getVal cols row "Projection" with
  | Val.num reg, Val.num proj =>
    Val.num ((((20 : ℚ) - (week : ℚ)) * proj) / 20 + ((week : ℚ) * reg) / 20)
  | _, _ => Val.null

/-- `.round(2)` lifted to cells. -/
def round2Val : Val → Val
  | Val.num q => Val.num (round2 q)
  | v => v

/-- The `f"{x:.2f}"` display formatting (`app.py` 241), abstracted to any
injective-enough string rendering; only the fact that it writes a separate
display column matters below. -/
def valToStr : Val → Val
  | Val.num q => Val.str (toString q)
  | v => v

/-- The name of the per-week display column (`app.py` 232). -/
def totalScoreName (week : ℤ) : String :=
  "Total_Score (Week " ++ toString week ++ ")"

/-- Sort key for `sort_values(by='Total_Score', ascending=False)`
(`app.py` 244): the `Total_Score` cell, non-numeric cells keyed as 0. -/
def rowScoreKey (cols : List String) (row : List Val) : ℚ :=
  match getVal cols row "Total_Score" with
  | Val.num q => q
  | _ => 0

/-- `sorted_data[[...]]` (`app.py` 251): project a dataframe onto the given
columns. -/
def selectCols (df : DF) (names : List String) : DF :=
  { cols := names
    rows := df.rows.map (fun row => names.map (getVal df.cols row)) }

/-- The computed `Total_Score` column values (`app.py` 235-238). -/
def rankingsScores (week : ℤ) (data : DF) : List Val :=
  data.rows.map (fun row => round2Val (rowRankScore week data.cols row))

/-- The session dataframe after `data['Total_Score'] = ...` (`app.py` 235). -/
def rankingsData1 (week : ℤ) (data : DF) : DF :=
  setCol data "Total_Score" (rankingsScores week data)

/-- The session dataframe after the display column is also written
(`app.py` 241). -/
def rankingsData2 (week : ℤ) (data : DF) : DF :=
  setCol (rankingsData1 week data) (totalScoreName week)
    ((rankingsData1 week data).rows.map
      (fun row => valToStr (getVal (rankingsData1 week data).cols row "Total_Score")))

/-- `display_player_rankings` acting on the session dataframe
(`app.py` 221-251): write the `Total_Score` column and the per-week display
column onto `data` (pandas column assignment mutates the passed frame),
then build the sorted, reindexed, column-projected view.  Returns the
mutated frame together with the displayed view. -/
def display_player_rankings_df (week : ℤ) (data : DF) : DF × DF :=
  (rankingsData2 week data,
   selectCols
     { cols := (rankingsData2 week data).cols
       rows := sortDesc (rowScoreKey (rankingsData2 week data).cols)
         (rankingsData2 week data).rows }
     ["Player_Name", "Regular", "Projection", totalScoreName week])

/-- C3/C6/C8 example: a scores table keyed by `Player` (no `Player_Name`). -/
def exScoresP : DF :=
  { cols := ["Player", "Regular", "Projection"]
    rows := [[Val.str "john", Val.num 10, Val.num 20]] }

/-- Example scores table keyed by `Player_Name`. -/
def exScoresPN : DF :=
  { cols := ["Player_Name", "Regular", "Projection"]
    rows := [[Val.str "john", Val.num 10, Val.num 20]] }

/-- Example scores table with no identity column at all. -/
def exScoresNoId : DF :=
  { cols := ["Regular", "Projection"]
    rows := [[Val.num 10, Val.num 20]] }

/-- Example injury table. -/
def exInj : DF :=
  { cols := ["Player", "Injury", "Status"]
    rows := [[Val.str "john", Val.str "Ankle", Val.str "Out"]] }

/-- C8 example: a fully merged table with all five canonical columns. -/
def exMerged : DF :=
  { cols := ["Player_Name", "Regular", "Projection", "Injury", "Status"]
    rows := [[Val.str "john", Val.num 10, Val.num 20, Val.str "Healthy",
      Val.str "Active"]] }

/-- Ranking example: two players with distinct ranking scores (15 and 4
at week 10). -/
def exRankData : List PlayerRec :=
  [⟨"p", 10, 20, "Healthy", "Active"⟩, ⟨"q", 4, 4, "Healthy", "Active"⟩]

/-- C1: the single-player score is exactly
`max 2 (((20 - week) * max 2 projection) / 20 + (week * max 2 regular) / 20)`
and in particular is at least 2, for every record and every integer week
(negative weeks and weeks beyond 20 included). -/
theorem c1_single_player_score_floor (p : PlayerRec) (week : ℤ) :
    score_of_record week p =
      max 2 ((((20 : ℚ) - (week : ℚ)) * max 2 p.projection) / 20 +
        ((week : ℚ) * max 2 p.regular) / 20) ∧
    2 ≤ score_of_record week p :=
  ⟨rfl, le_max_left _ _⟩

/-! ## Evaluation helper -/

/-- Evaluate `round2` on a concrete rational. -/
theorem round2_eq (q : ℚ) (n : ℤ) (h1 : (n : ℚ) ≤ 100 * q + 1 / 2)
    (h2 : 100 * q + 1 / 2 < n + 1) : round2 q = (n : ℚ) / 100 := by
  rw [round2, round_eq, Int.floor_eq_iff.mpr ⟨h1, h2⟩]

/-! ## Sorting lemmas -/

theorem insertDesc_perm {α : Type} (key : α → ℚ) (x : α) (l : List α) :
    List.Perm (insertDesc key x l) (x :: l) := by
  induction l with
  | nil => exact List.Perm.refl _
  | cons y ys ih =>
    simp only [insertDesc]
    split
    · exact List.Perm.refl _
    · exact (ih.cons y).trans (List.Perm.swap x y ys)

theorem sortDesc_perm {α : Type} (key : α → ℚ) (l : List α) :
    List.Perm (sortDesc key l) l := by
  induction l with
  | nil => exact List.Perm.refl _
  | cons x xs ih =>
    exact (insertDesc_perm key x (sortDesc key xs)).trans (ih.cons x)

theorem insertDesc_pairwise {α : Type} (key : α → ℚ) (x : α) {l : List α}
    (h : l.Pairwise (fun a b => key b ≤ key a)) :
    (insertDesc key x l).Pairwise (fun a b => key b ≤ key a) := by
  induction l with
  | nil => simp [insertDesc]
  | cons y ys ih =>
    rw [List.pairwise_cons] at h
    simp only [insertDesc]
    split
    · rename_i hlt
      rw [List.pairwise_cons]
      refine ⟨fun b hb => ?_, List.pairwise_cons.mpr h⟩
      rcases List.mem_cons.mp hb with rfl | hb'
      · exact le_of_lt hlt
      · exact le_trans (h.1 b hb') (le_of_lt hlt)
    · rename_i hnlt
      rw [List.pairwise_cons]
      refine ⟨fun b hb => ?_, ih h.2⟩
      rcases List.mem_cons.mp ((insertDesc_perm key x ys).subset hb) with rfl | hb'
      · exact le_of_not_lt hnlt
      · exact h.1 b hb'

theorem sortDesc_pairwise {α : Type} (key : α → ℚ) (l : List α) :
    (sortDesc key l).Pairwise (fun a b => key b ≤ key a) := by
  induction l with
  | nil => exact List.Pairwise.nil
  | cons x xs ih => exact insertDesc_pairwise key x ih

theorem sortDesc_strict {α : Type} (key : α → ℚ) (l : List α)
    (hd : (l.map key).Pairwise (· ≠ ·)) :
    (sortDesc key l).Pairwise (fun a b => key b < key a) := by
  have h1 := sortDesc_pairwise key l
  have hd' : (sortDesc key l).Pairwise (fun a b => key a ≠ key b) :=
    ((sortDesc_perm key l).pairwise_iff (fun h => h.symm)).mpr (List.pairwise_map.mp hd)
  exact (h1.and hd').imp (fun h => lt_of_le_of_ne h.1 h.2.symm)

/-- With pairwise-distinct keys, the descending sort of a list depends only
on its multiset of elements. -/
theorem sortDesc_eq_of_perm {α : Type} (key : α → ℚ) {l₁ l₂ : List α}
    (hp : List.Perm l₁ l₂) (hd : (l₁.map key).Pairwise (· ≠ ·)) :
    sortDesc key l₁ = sortDesc key l₂ := by
  haveI : IsAntisymm α (fun a b => key b < key a) :=
    ⟨fun a b h h' => absurd (lt_trans h h') (lt_irrefl _)⟩
  have hd₂ : (l₂.map key).Pairwise (· ≠ ·) :=
    ((hp.map key).pairwise_iff (fun h => h.symm)).mp hd
  exact List.eq_of_perm_of_sorted
    ((sortDesc_perm key l₁).trans (hp.trans (sortDesc_perm key l₂).symm))
    (sortDesc_strict key l₁ hd) (sortDesc_strict key l₂ hd₂)

theorem withRanks_map_snd {α : Type} (n : ℕ) (l : List α) :
    (withRanks n l).map (fun e => e.2) = l := by
  induction l generalizing n with
  | nil => rfl
  | cons x xs ih => simp [withRanks, ih]

theorem withRanks_map_fst {α : Type} (n : ℕ) (l : List α) :
    (withRanks n l).map (fun e => e.1) = List.range' n l.length := by
  induction l generalizing n with
  | nil => rfl
  | cons x xs ih => simp [withRanks, List.range'_succ, ih]

theorem mem_withRanks {α : Type} {n : ℕ} {l : List α} {e : ℕ × α}
    (h : e ∈ withRanks n l) : e.2 ∈ l := by
  induction l generalizing n with
  | nil => cases h
  | cons x xs ih =>
    rcases List.mem_cons.mp h with rfl | h'
    · exact List.mem_cons_self _ _
    · exact List.mem_cons_of_mem _ (ih h')

/-- The ranking pipeline scores every row with the *unfloored*
interpolation rounded to two decimals, keeps the output sorted descending
by that value, and assigns 1-based ranks by sorted position — for every
table, with no assumption on the scores.  (Tie *order* among equal scores
is not asserted: the source sorts with pandas default quicksort, which
gives no tie-order guarantee.) -/
theorem display_rankings_scores_sorted_ranks (week : ℤ) (data : List PlayerRec) :
    (∀ e ∈ display_player_rankings week data,
      e.2.2 = round2 ((((20 : ℚ) - (week : ℚ)) * e.2.1.projection) / 20 +
        ((week : ℚ) * e.2.1.regular) / 20)) ∧
    ((display_player_rankings week data).map (fun e => e.2.2)).Pairwise (· ≥ ·) ∧
    (display_player_rankings week data).map (fun e => e.1) =
      List.range' 1 data.length := by
  refine ⟨?_, ?_, ?_⟩
  · intro e he
    have h1 : e.2 ∈ sortDesc (fun p : PlayerRec × ℚ => p.2)
        (data.map (fun r => (r, rankScore week r))) := mem_withRanks he
    have h2 := (sortDesc_perm _ _).subset h1
    obtain ⟨r, _, hfr⟩ := List.mem_map.mp h2
    rw [← hfr]
    rfl
  · have hmap : (display_player_rankings week data).map (fun e => e.2.2) =
        (sortDesc (fun p : PlayerRec × ℚ => p.2)
          (data.map (fun r => (r, rankScore week r)))).map (fun p => p.2) := by
      rw [display_player_rankings,
        show (fun (e : ℕ × PlayerRec × ℚ) => e.2.2) =
          (fun (p : PlayerRec × ℚ) => p.2) ∘ (fun (e : ℕ × PlayerRec × ℚ) => e.2) from rfl,
        ← List.map_map, withRanks_map_snd]
    rw [hmap]
    exact List.pairwise_map.mpr (sortDesc_pairwise _ _)
  · rw [display_player_rankings, withRanks_map_fst,
      (sortDesc_perm _ _).length_eq, List.length_map]

/-- When the computed scores are pairwise distinct, the sorted order is
forced regardless of tie handling, so reversing the input row order
leaves the whole rank-to-player assignment unchanged. -/
theorem display_rankings_reverse_of_distinct (week : ℤ) (data : List PlayerRec)
    (hdist : (data.map (rankScore week)).Pairwise (· ≠ ·)) :
    display_player_rankings week data.reverse =
      display_player_rankings week data := by
  have hkeys : ((data.map (fun r => (r, rankScore week r))).map
      (fun p : PlayerRec × ℚ => p.2)).Pairwise (· ≠ ·) := by
    rw [List.map_map]
    exact hdist
  have hper : List.Perm (data.reverse.map (fun r => (r, rankScore week r)))
      (data.map (fun r => (r, rankScore week r))) :=
    (List.reverse_perm data).map _
  rw [display_player_rankings, display_player_rankings,
    sortDesc_eq_of_perm _ hper (((hper.map _).pairwise_iff (fun h => h.symm)).mpr hkeys)]

/-- The two ranking lemmas instantiated at a concrete two-player table
with distinct scores (15 and 4 at week 10). -/
theorem display_rankings_example :
    ((exRankData.map (rankScore 10)).Pairwise (· ≠ ·)) ∧
    ((∀ e ∈ display_player_rankings 10 exRankData,
      e.2.2 = round2 ((((20 : ℚ) - ((10 : ℤ) : ℚ)) * e.2.1.projection) / 20 +
        (((10 : ℤ) : ℚ) * e.2.1.regular) / 20)) ∧
    ((display_player_rankings 10 exRankData).map (fun e => e.2.2)).Pairwise (· ≥ ·) ∧
    (display_player_rankings 10 exRankData).map (fun e => e.1) =
      List.range' 1 exRankData.length) ∧
    display_player_rankings 10 exRankData.reverse =
      display_player_rankings 10 exRankData := by
  have r1 : rankScore 10 (⟨"p", 10, 20, "Healthy", "Active"⟩ : PlayerRec) = 15 := by
    simp only [rankScore]
    norm_num
    rw [round2_eq 15 1500 (by norm_num) (by norm_num)]
    norm_num
  have r2 : rankScore 10 (⟨"q", 4, 4, "Healthy", "Active"⟩ : PlayerRec) = 4 := by
    simp only [rankScore]
    norm_num
    rw [round2_eq 4 400 (by norm_num) (by norm_num)]
    norm_num
  have hdist : (exRankData.map (rankScore 10)).Pairwise (· ≠ ·) := by
    simp [exRankData, r1, r2]
  exact ⟨hdist, display_rankings_scores_sorted_ranks 10 exRankData,
    display_rankings_reverse_of_distinct 10 exRankData hdist⟩

/-! ## Trade evaluation lemmas -/

theorem calculate_score_ge_two {data : List PlayerRec} {week : ℤ} {n : String} {q : ℚ}
    (h : calculate_score data week n = some q) : 2 ≤ q := by
  rw [calculate_score] at h
  cases hf : findPlayer data n with
  | none => rw [hf] at h; cases h
  | some rec =>
    rw [hf] at h
    simp only [Option.map_some', Option.some.injEq] at h
    rw [← h]
    exact le_max_left _ _

theorem scoresFor_length (data : List PlayerRec) (week : ℤ) :
    ∀ (ns : List String) (s : List ℚ),
      scoresFor data week ns = some s → s.length = ns.length := by
  intro ns
  induction ns with
  | nil =>
    intro s h
    simp only [scoresFor, Option.some.injEq] at h
    simp [← h]
  | cons n ns ih =>
    intro s h
    rw [scoresFor] at h
    cases hc : calculate_score data week n <;>
      cases hr : scoresFor data week ns <;> rw [hc, hr] at h <;> simp at h
    rw [← h, List.length_cons, List.length_cons, ih _ hr]

theorem scoresFor_all_ge_two (data : List PlayerRec) (week : ℤ) :
    ∀ (ns : List String) (s : List ℚ),
      scoresFor data week ns = some s → ∀ q ∈ s, 2 ≤ q := by
  intro ns
  induction ns with
  | nil =>
    intro s h
    simp only [scoresFor, Option.some.injEq] at h
    simp [← h]
  | cons n ns ih =>
    intro s h
    rw [scoresFor] at h
    cases hc : calculate_score data week n <;>
      cases hr : scoresFor data week ns <;> rw [hc, hr] at h <;> simp at h
    intro q hq
    rw [← h] at hq
    rcases List.mem_cons.mp hq with rfl | hq'
    · exact calculate_score_ge_two hc
    · exact ih _ hr q hq'

theorem scoresFor_eq_none (data : List PlayerRec) (week : ℤ) {ns : List String}
    (h : ∃ n ∈ ns, findPlayer data n = none) :
    scoresFor data week ns = none := by
  induction ns with
  | nil => rcases h with ⟨n, hn, -⟩; cases hn
  | cons m ms ih =>
    rcases h with ⟨n, hn, hf⟩
    rcases List.mem_cons.mp hn with rfl | hn'
    · rw [scoresFor, calculate_score, hf]
      cases scoresFor data week ms <;> rfl
    · rw [scoresFor, ih ⟨n, hn', hf⟩]
      cases calculate_score data week m <;> rfl

theorem sum_pos_of_ge_two : ∀ (s : List ℚ), (∀ q ∈ s, 2 ≤ q) → s ≠ [] → 0 < s.sum := by
  intro s hall hne
  cases s with
  | nil => exact absurd rfl hne
  | cons q rest =>
    have h1 : 2 ≤ q := hall q (List.mem_cons_self _ _)
    have h2 : 0 ≤ rest.sum :=
      List.sum_nonneg (fun x hx => le_trans zero_le_two (hall x (List.mem_cons_of_mem _ hx)))
    rw [List.sum_cons]
    linarith

theorem paddedTotal_pos {s : List ℚ} {own other : ℕ} (hall : ∀ q ∈ s, 2 ≤ q)
    (hlen : s.length = own) (h : ¬(own = 0 ∧ other = 0)) :
    0 < paddedTotal s own other := by
  rw [paddedTotal]
  split
  · rename_i hlt
    have h2 : 0 ≤ s.sum :=
      List.sum_nonneg (fun x hx => le_trans zero_le_two (hall x hx))
    have h3 : (0 : ℚ) < 2 * ((other - own : ℕ) : ℚ) := by
      have h4 : 0 < other - own := Nat.sub_pos_of_lt hlt
      have h5 : (0 : ℚ) < ((other - own : ℕ) : ℚ) := by exact_mod_cast h4
      linarith
    linarith
  · rename_i hnlt
    have hown : own ≠ 0 := by
      intro h0
      exact h ⟨h0, by omega⟩
    have hsne : s ≠ [] := by
      intro h0
      rw [h0] at hlen
      exact hown hlen.symm
    exact sum_pos_of_ge_two s hall hsne

theorem min_ratio_facts {a b : ℚ} (ha : 0 < a) (hb : 0 < b) :
    0 < min (a / b) (b / a) ∧ min (a / b) (b / a) ≤ 1 ∧
    (min (a / b) (b / a) = 1 ↔ a = b) := by
  refine ⟨lt_min (div_pos ha hb) (div_pos hb ha), ?_, ?_, ?_⟩
  · rcases le_total a b with hab | hab
    · exact le_trans (min_le_left _ _) ((div_le_one hb).mpr hab)
    · exact le_trans (min_le_right _ _) ((div_le_one ha).mpr hab)
  · intro h
    have h1 : (1 : ℚ) ≤ a / b := le_trans (le_of_eq h.symm) (min_le_left _ _)
    have h2 : (1 : ℚ) ≤ b / a := le_trans (le_of_eq h.symm) (min_le_right _ _)
    exact le_antisymm ((one_le_div ha).mp h2) ((one_le_div hb).mp h1)
  · rintro rfl
    simp [div_self (ne_of_gt ha)]

theorem score_of_record_ten (nm inj st : String) :
    score_of_record 10 ⟨nm, 10, 10, inj, st⟩ = 10 := by
  simp only [score_of_record]
  rw [max_eq_right (show (2 : ℚ) ≤ (10 : ℚ) by norm_num)]
  norm_num

theorem calc_exData_a : calculate_score exData 10 "a" = some 10 := by
  rw [calculate_score,
    show findPlayer exData "a" = some ⟨"a", 10, 10, "Healthy", "Active"⟩ from rfl]
  simp [score_of_record_ten]

theorem calc_exData_b : calculate_score exData 10 "b" = some 10 := by
  rw [calculate_score,
    show findPlayer exData "b" = some ⟨"b", 10, 10, "Healthy", "Active"⟩ from rfl]
  simp [score_of_record_ten]

theorem calc_exData_c : calculate_score exData 10 "c" = some 10 := by
  rw [calculate_score,
    show findPlayer exData "c" = some ⟨"c", 10, 10, "Healthy", "Active"⟩ from rfl]
  simp [score_of_record_ten]

theorem calc_exData_d : calculate_score exData 10 "d" = some 10 := by
  rw [calculate_score,
    show findPlayer exData "d" = some ⟨"d", 10, 10, "Healthy", "Active"⟩ from rfl]
  simp [score_of_record_ten]

theorem calc_exData_e : calculate_score exData 10 "e" = some 10 := by
  rw [calculate_score,
    show findPlayer exData "e" = some ⟨"e", 10, 10, "Healthy", "Active"⟩ from rfl]
  simp [score_of_record_ten]

theorem scoresFor_exData_abc :
    scoresFor exData 10 ["a", "b", "c"] = some [10, 10, 10] := by
  simp only [scoresFor, calc_exData_a, calc_exData_b, calc_exData_c]

theorem scoresFor_exData_de :
    scoresFor exData 10 ["d", "e"] = some [10, 10] := by
  simp only [scoresFor, calc_exData_d, calc_exData_e]

theorem scoresFor_exData_a :
    scoresFor exData 10 ["a"] = some [10] := by
  simp only [scoresFor, calc_exData_a]

theorem scoresFor_exData_b :
    scoresFor exData 10 ["b"] = some [10] := by
  simp only [scoresFor, calc_exData_b]

/-- C4: with both lookups successful and not both sides empty, the
evaluation pads the shorter side's total with fillers worth exactly 2
each (included in that side's total), takes
`ratio = min(t1/t2, t2/t1)`, and approves iff the ratio is at least
0.80. -/
theorem c4_padding_ratio_approval (data : List PlayerRec) (week : ℤ)
    (A B : List String) (s1 s2 : List ℚ)
    (h1 : scoresFor data week A = some s1) (h2 : scoresFor data week B = some s2)
    (hne : ¬(A = [] ∧ B = [])) (hdisj : ∀ n ∈ A, n ∉ B) :
    ∃ r, evaluate_trade data week A B = Except.ok r ∧
      r.team1_total = (if A.length < B.length
        then s1.sum + 2 * ((B.length - A.length : ℕ) : ℚ) else s1.sum) ∧
      r.team2_total = (if B.length < A.length
        then s2.sum + 2 * ((A.length - B.length : ℕ) : ℚ) else s2.sum) ∧
      r.trade_ratio = min (r.team1_total / r.team2_total)
        (r.team2_total / r.team1_total) ∧
      (r.approved = true ↔ (4 : ℚ) / 5 ≤ r.trade_ratio) := by
  have hall1 := scoresFor_all_ge_two data week A s1 h1
  have hall2 := scoresFor_all_ge_two data week B s2 h2
  have hlen1 := scoresFor_length data week A s1 h1
  have hlen2 := scoresFor_length data week B s2 h2
  have hnz : ¬(A.length = 0 ∧ B.length = 0) := by
    intro hcon
    exact hne ⟨List.length_eq_zero.mp hcon.1, List.length_eq_zero.mp hcon.2⟩
  have hp1 : 0 < paddedTotal s1 A.length B.length :=
    paddedTotal_pos hall1 hlen1 hnz
  have hp2 : 0 < paddedTotal s2 B.length A.length :=
    paddedTotal_pos hall2 hlen2 (by intro hcon; exact hnz ⟨hcon.2, hcon.1⟩)
  simp only [evaluate_trade, h1, h2]
  rw [if_neg (by push_neg; exact ⟨ne_of_gt hp1, ne_of_gt hp2⟩)]
  refine ⟨_, rfl, ?_, ?_, rfl, ?_⟩
  · show paddedTotal s1 A.length B.length = _
    rw [paddedTotal]
  · show paddedTotal s2 B.length A.length = _
    rw [paddedTotal]
  · simp

/-- C4 witness: side A has 3 players totalling 30, side B has 2 players
totalling 20; B is padded with one filler to 22, the ratio is
`22/30 < 0.80`, and the trade is not approved. -/
theorem c4_witness :
    (scoresFor exData 10 ["a", "b", "c"] = some [10, 10, 10] ∧
     scoresFor exData 10 ["d", "e"] = some [10, 10] ∧
     ¬((["a", "b", "c"] : List String) = [] ∧ (["d", "e"] : List String) = []) ∧
     (∀ n ∈ (["a", "b", "c"] : List String), n ∉ (["d", "e"] : List String)) ∧
     (∃ r, evaluate_trade exData 10 ["a", "b", "c"] ["d", "e"] = Except.ok r ∧
       r.team1_total = (if (["a", "b", "c"] : List String).length <
           (["d", "e"] : List String).length
         then ([10, 10, 10] : List ℚ).sum +
           2 * (((["d", "e"] : List String).length -
             (["a", "b", "c"] : List String).length : ℕ) : ℚ)
         else ([10, 10, 10] : List ℚ).sum) ∧
       r.team2_total = (if (["d", "e"] : List String).length <
           (["a", "b", "c"] : List String).length
         then ([10, 10] : List ℚ).sum +
           2 * (((["a", "b", "c"] : List String).length -
             (["d", "e"] : List String).length : ℕ) : ℚ)
         else ([10, 10] : List ℚ).sum) ∧
       r.trade_ratio = min (r.team1_total / r.team2_total)
         (r.team2_total / r.team1_total) ∧
       (r.approved = true ↔ (4 : ℚ) / 5 ≤ r.trade_ratio))) ∧
    evaluate_trade exData 10 ["a", "b", "c"] ["d", "e"] =
      Except.ok ⟨30, 22, 22 / 30, false⟩ := by
  refine ⟨⟨scoresFor_exData_abc, scoresFor_exData_de, by simp, by decide,
    c4_padding_ratio_approval exData 10 _ _ _ _ scoresFor_exData_abc
      scoresFor_exData_de (by simp) (by decide)⟩, ?_⟩
  simp only [evaluate_trade, scoresFor_exData_abc, scoresFor_exData_de]
  have ht1 : paddedTotal [10, 10, 10] (["a", "b", "c"] : List String).length
      (["d", "e"] : List String).length = 30 := by
    rw [paddedTotal]
    norm_num
  have ht2 : paddedTotal [10, 10] (["d", "e"] : List String).length
      (["a", "b", "c"] : List String).length = 22 := by
    rw [paddedTotal]
    norm_num
  rw [ht1, ht2, if_neg (by norm_num),
    min_eq_right (show (22 : ℚ) / 30 ≤ 30 / 22 by norm_num),
    decide_eq_false (show ¬((4 : ℚ) / 5 ≤ 22 / 30) by norm_num)]

/-- C5: trade evaluation is symmetric — swapping the sides swaps the two
totals and preserves the ratio and the verdict — and with both totals
positive the ratio lies in `(0, 1]`, hitting 1 exactly on equal totals. -/
theorem c5_trade_symmetry (data : List PlayerRec) (week : ℤ) (A B : List String)
    (r : TradeResult) (h : evaluate_trade data week A B = Except.ok r) :
    (∃ r', evaluate_trade data week B A = Except.ok r' ∧
      r'.trade_ratio = r.trade_ratio ∧ r'.approved = r.approved ∧
      r'.team1_total = r.team2_total ∧ r'.team2_total = r.team1_total) ∧
    (0 < r.team1_total → 0 < r.team2_total →
      0 < r.trade_ratio ∧ r.trade_ratio ≤ 1 ∧
      (r.trade_ratio = 1 ↔ r.team1_total = r.team2_total)) := by
  cases hA : scoresFor data week A with
  | none =>
    rw [evaluate_trade, hA] at h
    cases hB : scoresFor data week B <;> rw [hB] at h <;> simp at h
  | some s1 =>
    cases hB : scoresFor data week B with
    | none =>
      simp only [evaluate_trade, hA, hB] at h
      simp at h
    | some s2 =>
      simp only [evaluate_trade, hA, hB] at h
      by_cases hz : paddedTotal s1 A.length B.length = 0 ∨
          paddedTotal s2 B.length A.length = 0
      · rw [if_pos hz] at h
        simp at h
      · rw [if_neg hz] at h
        injection h with h'
        subst h'
        push_neg at hz
        constructor
        · have hBA : evaluate_trade data week B A = Except.ok
              ⟨paddedTotal s2 B.length A.length, paddedTotal s1 A.length B.length,
               min (paddedTotal s2 B.length A.length / paddedTotal s1 A.length B.length)
                 (paddedTotal s1 A.length B.length / paddedTotal s2 B.length A.length),
               decide ((4 : ℚ) / 5 ≤
                 min (paddedTotal s2 B.length A.length / paddedTotal s1 A.length B.length)
                   (paddedTotal s1 A.length B.length / paddedTotal s2 B.length A.length))⟩ := by
            simp only [evaluate_trade, hB, hA]
            rw [if_neg (by push_neg; exact ⟨hz.2, hz.1⟩)]
          refine ⟨_, hBA, min_comm _ _, ?_, rfl, rfl⟩
          show decide _ = decide _
          rw [min_comm]
        · intro hpos1 hpos2
          exact min_ratio_facts hpos1 hpos2

/-- C5 witness: a one-for-one trade of equally valued players has ratio 1
and is approved; the theorem instantiated there. -/
theorem c5_witness :
    (evaluate_trade exData 10 ["a"] ["b"] = Except.ok ⟨10, 10, 1, true⟩) ∧
    (∃ r', evaluate_trade exData 10 ["b"] ["a"] = Except.ok r' ∧
      r'.trade_ratio = 1 ∧ r'.approved = true ∧
      r'.team1_total = 10 ∧ r'.team2_total = 10) ∧
    (0 < (10 : ℚ) → 0 < (10 : ℚ) →
      0 < (1 : ℚ) ∧ (1 : ℚ) ≤ 1 ∧ ((1 : ℚ) = 1 ↔ (10 : ℚ) = 10)) := by
  have h : evaluate_trade exData 10 ["a"] ["b"] = Except.ok ⟨10, 10, 1, true⟩ := by
    simp only [evaluate_trade, scoresFor_exData_a, scoresFor_exData_b]
    have ht1 : paddedTotal [10] (["a"] : List String).length
        (["b"] : List String).length = 10 := by
      simp [paddedTotal]
    have ht2 : paddedTotal [10] (["b"] : List String).length
        (["a"] : List String).length = 10 := by
      simp [paddedTotal]
    rw [ht1, ht2, if_neg (by norm_num),
      div_self (show (10 : ℚ) ≠ 0 by norm_num), min_self,
      show decide ((4 : ℚ) / 5 ≤ 1) = true from decide_eq_true (by norm_num)]
  have hc := c5_trade_symmetry exData 10 ["a"] ["b"] ⟨10, 10, 1, true⟩ h
  exact ⟨h, hc.1, hc.2⟩

/-- C7: a selected name with no exact match in the table makes the whole
evaluation fail with an error and no partial result. -/
theorem c7_missing_player_fails (data : List PlayerRec) (week : ℤ)
    (A B : List String)
    (h : (∃ n ∈ A, findPlayer data n = none) ∨ (∃ n ∈ B, findPlayer data n = none)) :
    ∃ e, evaluate_trade data week A B = Except.error e := by
  rcases h with hA | hB
  · refine ⟨"IndexError: single positional indexer is out-of-bounds", ?_⟩
    rw [evaluate_trade, scoresFor_eq_none data week hA]
  · refine ⟨"IndexError: single positional indexer is out-of-bounds", ?_⟩
    rw [evaluate_trade, scoresFor_eq_none data week hB]
    cases scoresFor data week A <;> rfl

/-- C7 witness: the unknown name "zzz" on side A aborts the evaluation. -/
theorem c7_witness :
    ((∃ n ∈ (["a", "zzz"] : List String), findPlayer exData n = none) ∨
     (∃ n ∈ (["b"] : List String), findPlayer exData n = none)) ∧
    (∃ e, evaluate_trade exData 10 ["a", "zzz"] ["b"] = Except.error e) := by
  have hmem : ∃ n ∈ (["a", "zzz"] : List String), findPlayer exData n = none :=
    ⟨"zzz", by simp, rfl⟩
  exact ⟨Or.inl hmem, c7_missing_player_fails exData 10 _ _ (Or.inl hmem)⟩

/-- C10: with exactly one empty side and every name of the other side
found, the submission gate lets the evaluation through, the empty side is
padded to a total of exactly `2 * n`, the zero-total guard does not fire,
and a result (ratio and verdict) is produced. -/
theorem c10_empty_side_padded (data : List PlayerRec) (week : ℤ)
    (names : List String) (s : List ℚ)
    (hne : names ≠ []) (hs : scoresFor data week names = some s) :
    (∃ r, mainEvaluate data week [] names = Except.ok r ∧
      r.team1_total = 2 * (names.length : ℚ) ∧ r.team2_total = s.sum) ∧
    (∃ r, mainEvaluate data week names [] = Except.ok r ∧
      r.team2_total = 2 * (names.length : ℚ) ∧ r.team1_total = s.sum) := by
  have hall := scoresFor_all_ge_two data week names s hs
  have hlen := scoresFor_length data week names s hs
  have hpos : 0 < names.length := List.length_pos.mpr hne
  have hsne : s ≠ [] := by
    intro h0
    rw [h0] at hlen
    exact hne (List.length_eq_zero.mp hlen.symm)
  have hsum : 0 < s.sum := sum_pos_of_ge_two s hall hsne
  have hcast : (0 : ℚ) < 2 * (names.length : ℚ) := by
    have h1 : (0 : ℚ) < (names.length : ℚ) := by exact_mod_cast hpos
    linarith
  have hempty : scoresFor data week [] = some [] := rfl
  have htpad : paddedTotal [] (List.length ([] : List String)) names.length =
      2 * (names.length : ℚ) := by
    rw [paddedTotal, if_pos (by simpa using hpos)]
    simp
  have htfull : paddedTotal s names.length (List.length ([] : List String)) = s.sum := by
    rw [paddedTotal, if_neg (by simp)]
  constructor
  · rw [mainEvaluate, if_neg (by simp), if_neg (by simp [hne])]
    simp only [evaluate_trade, hempty, hs]
    rw [htpad, htfull,
      if_neg (by push_neg; exact ⟨ne_of_gt hcast, ne_of_gt hsum⟩)]
    exact ⟨_, rfl, rfl, rfl⟩
  · rw [mainEvaluate, if_neg (by simp), if_neg (by simp [hne])]
    simp only [evaluate_trade, hempty, hs]
    rw [htpad, htfull,
      if_neg (by push_neg; exact ⟨ne_of_gt hsum, ne_of_gt hcast⟩)]
    exact ⟨_, rfl, rfl, rfl⟩

/-- C10 witness: side A empty against the single player "a"; A's total
becomes 2 and the evaluation completes. -/
theorem c10_witness :
    ((["a"] : List String) ≠ [] ∧ scoresFor exData 10 ["a"] = some [10]) ∧
    ((∃ r, mainEvaluate exData 10 [] ["a"] = Except.ok r ∧
      r.team1_total = 2 * (((["a"] : List String).length : ℕ) : ℚ) ∧
      r.team2_total = ([10] : List ℚ).sum) ∧
    (∃ r, mainEvaluate exData 10 ["a"] [] = Except.ok r ∧
      r.team2_total = 2 * (((["a"] : List String).length : ℕ) : ℚ) ∧
      r.team1_total = ([10] : List ℚ).sum)) :=
  ⟨⟨by simp, scoresFor_exData_a⟩,
    c10_empty_side_padded exData 10 ["a"] [10] (by simp) scoresFor_exData_a⟩

/-! ## Name normalization lemmas -/

theorem mem_collapseAux : ∀ (b : Bool) (l : List Char) (c : Char),
    c ∈ collapseAux b l → c = ' ' ∨ (c ∈ l ∧ c.isWhitespace = false) := by
  intro b l
  induction l generalizing b with
  | nil => intro c h; cases h
  | cons d ds ih =>
    intro c h
    rw [collapseAux] at h
    by_cases hd : d.isWhitespace
    · rw [if_pos hd] at h
      cases b with
      | true =>
        rcases ih true c h with h' | h'
        · exact Or.inl h'
        · exact Or.inr ⟨List.mem_cons_of_mem _ h'.1, h'.2⟩
      | false =>
        rcases List.mem_cons.mp h with rfl | h'
        · exact Or.inl rfl
        · rcases ih true c h' with h'' | h''
          · exact Or.inl h''
          · exact Or.inr ⟨List.mem_cons_of_mem _ h''.1, h''.2⟩
    · rw [if_neg hd] at h
      rcases List.mem_cons.mp h with rfl | h'
      · exact Or.inr ⟨List.mem_cons_self _ _, Bool.of_not_eq_true hd⟩
      · rcases ih false c h' with h'' | h''
        · exact Or.inl h''
        · exact Or.inr ⟨List.mem_cons_of_mem _ h''.1, h''.2⟩

theorem head_collapseAux_true : ∀ (l : List Char) (c : Char),
    (collapseAux true l).head? = some c → c.isWhitespace = false := by
  intro l
  induction l with
  | nil => intro c h; cases h
  | cons d ds ih =>
    intro c h
    rw [collapseAux] at h
    by_cases hd : d.isWhitespace
    · rw [if_pos hd, if_pos rfl] at h
      exact ih c h
    · rw [if_neg hd] at h
      rw [List.head?_cons, Option.some.injEq] at h
      rw [← h]
      exact Bool.of_not_eq_true hd

theorem chain'_collapseAux : ∀ (b : Bool) (l : List Char),
    (collapseAux b l).Chain'
      (fun a c => ¬(a.isWhitespace = true ∧ c.isWhitespace = true)) := by
  intro b l
  induction l generalizing b with
  | nil => exact List.chain'_nil
  | cons d ds ih =>
    rw [collapseAux]
    by_cases hd : d.isWhitespace
    · rw [if_pos hd]
      cases b with
      | true => exact ih true
      | false =>
        rw [if_neg (by simp)]
        refine List.chain'_cons'.mpr ⟨?_, ih true⟩
        intro y hy
        intro hcon
        have := head_collapseAux_true ds y hy
        rw [this] at hcon
        exact Bool.false_ne_true hcon.2
    · rw [if_neg hd]
      refine List.chain'_cons'.mpr ⟨?_, ih false⟩
      intro y _
      intro hcon
      exact hd hcon.1

theorem head_dropWhile {α : Type} (p : α → Bool) :
    ∀ (l : List α) (c : α), (l.dropWhile p).head? = some c → p c = false := by
  intro l
  induction l with
  | nil => intro c h; cases h
  | cons d ds ih =>
    intro c h
    by_cases hd : p d
    · rw [List.dropWhile_cons_of_pos hd] at h
      exact ih c h
    · rw [List.dropWhile_cons_of_neg hd] at h
      rw [List.head?_cons, Option.some.injEq] at h
      rw [← h]
      exact Bool.of_not_eq_true hd

theorem chain'_dropWhile {α : Type} {R : α → α → Prop} (p : α → Bool) :
    ∀ (l : List α), List.Chain' R l → List.Chain' R (l.dropWhile p) := by
  intro l
  induction l with
  | nil => intro h; exact h
  | cons d ds ih =>
    intro h
    by_cases hd : p d
    · rw [List.dropWhile_cons_of_pos hd]
      exact ih (List.chain'_cons'.mp h).2
    · rw [List.dropWhile_cons_of_neg hd]
      exact h

theorem mem_trimWs (l : List Char) (c : Char) (h : c ∈ trimWs l) : c ∈ l := by
  rw [trimWs, List.mem_reverse] at h
  have h1 := (List.dropWhile_sublist (l := (l.dropWhile Char.isWhitespace).reverse)
    Char.isWhitespace).subset h
  rw [List.mem_reverse] at h1
  exact (List.dropWhile_sublist (l := l) Char.isWhitespace).subset h1

theorem trimWs_append_eq (l : List Char) :
    l.dropWhile Char.isWhitespace = trimWs l ++
      ((l.dropWhile Char.isWhitespace).reverse.takeWhile Char.isWhitespace).reverse := by
  rw [trimWs]
  have h := List.takeWhile_append_dropWhile Char.isWhitespace
    ((l.dropWhile Char.isWhitespace).reverse)
  calc l.dropWhile Char.isWhitespace
      = ((l.dropWhile Char.isWhitespace).reverse).reverse := (List.reverse_reverse _).symm
    _ = ((l.dropWhile Char.isWhitespace).reverse.takeWhile Char.isWhitespace ++
          (l.dropWhile Char.isWhitespace).reverse.dropWhile Char.isWhitespace).reverse := by
          rw [h]
    _ = _ := by rw [List.reverse_append]

theorem head_trimWs (l : List Char) (c : Char) (h : (trimWs l).head? = some c) :
    c.isWhitespace = false := by
  have hC : (l.dropWhile Char.isWhitespace).head? = some c := by
    rw [trimWs_append_eq l, List.head?_append, h]
    rfl
  exact head_dropWhile Char.isWhitespace l c hC

theorem getLast_trimWs (l : List Char) (c : Char)
    (h : (trimWs l).getLast? = some c) : c.isWhitespace = false := by
  rw [← List.head?_reverse] at h
  rw [trimWs, List.reverse_reverse] at h
  exact head_dropWhile Char.isWhitespace _ c h

theorem chain'_trimWs {R : Char → Char → Prop} (l : List Char)
    (h : List.Chain' R l) : List.Chain' R (trimWs l) := by
  have h1 : List.Chain' R (l.dropWhile Char.isWhitespace) :=
    chain'_dropWhile _ _ h
  have h2 : List.Chain' (flip R) ((l.dropWhile Char.isWhitespace).reverse) := by
    rw [List.chain'_reverse]
    exact h1
  have h3 := chain'_dropWhile (R := flip R) Char.isWhitespace _ h2
  rw [trimWs, List.chain'_reverse]
  exact h3

/-- C9: for every input string (and any behaviour of the Unicode NFKD
step), normalization returns a string whose characters are all lowercase
latin letters or single spaces, with no leading or trailing whitespace and
no two consecutive spaces. -/
theorem c9_normalize_shape (nfkd : String → String) (s : String) :
    (∀ c ∈ (normalize_player_name nfkd s).toList,
      ('a' ≤ c ∧ c ≤ 'z') ∨ c = ' ') ∧
    (∀ c, (normalize_player_name nfkd s).toList.head? = some c →
      c.isWhitespace = false) ∧
    (∀ c, (normalize_player_name nfkd s).toList.getLast? = some c →
      c.isWhitespace = false) ∧
    (normalize_player_name nfkd s).toList.Chain'
      (fun a b => ¬(a = ' ' ∧ b = ' ')) := by
  have hout : (normalize_player_name nfkd s).toList =
      trimWs (collapseWs
        ((nfkd (String.mk (s.toList.map Char.toLower))).toList.filter keepChar)) := rfl
  rw [hout]
  refine ⟨?_, ?_, ?_, ?_⟩
  · intro c hc
    have h1 := mem_trimWs _ _ hc
    rcases mem_collapseAux false _ c h1 with rfl | ⟨hmem, hnws⟩
    · exact Or.inr rfl
    · have h2 := (List.mem_filter.mp hmem).2
      rw [keepChar, Bool.or_eq_true, Bool.and_eq_true,
        decide_eq_true_eq, decide_eq_true_eq] at h2
      rcases h2 with ⟨h3, h4⟩ | h5
      · exact Or.inl ⟨h3, h4⟩
      · rw [hnws] at h5
        cases h5
  · intro c hc
    exact head_trimWs _ _ hc
  · intro c hc
    exact getLast_trimWs _ _ hc
  · exact (chain'_trimWs _ (chain'_collapseAux false _)).imp
      (fun a b hab hcon => hab ⟨by rw [hcon.1]; rfl, by rw [hcon.2]; rfl⟩)

/-- C9 witness: the theorem at a concrete messy input (with the NFKD step
instantiated by the identity), plus its concrete output. -/
theorem c9_witness :
    normalize_player_name id " John  DOE-3 " = "john doe" ∧
    ((∀ c ∈ (normalize_player_name id " John  DOE-3 ").toList,
      ('a' ≤ c ∧ c ≤ 'z') ∨ c = ' ') ∧
    (∀ c, (normalize_player_name id " John  DOE-3 ").toList.head? = some c →
      c.isWhitespace = false) ∧
    (∀ c, (normalize_player_name id " John  DOE-3 ").toList.getLast? = some c →
      c.isWhitespace = false) ∧
    (normalize_player_name id " John  DOE-3 ").toList.Chain'
      (fun a b => ¬(a = ' ' ∧ b = ' '))) :=
  ⟨rfl, c9_normalize_shape id " John  DOE-3 "⟩

/-- C6: a performance table with neither `Player_Name` nor `Player` makes
the merge fail with an error and no merged table. -/
theorem c6_missing_identity_fails (dfScores dfInjuries : DF)
    (h1 : "Player_Name" ∉ dfScores.cols) (h2 : "Player" ∉ dfScores.cols) :
    ∃ e, read_data dfScores dfInjuries = Except.error e := by
  refine ⟨"KeyError: Player (scores table)", ?_⟩
  rw [read_data, if_neg h1, if_neg h2]

/-- C6 witness: a concrete table with only `Regular`/`Projection` columns. -/
theorem c6_witness :
    ("Player_Name" ∉ exScoresNoId.cols ∧ "Player" ∉ exScoresNoId.cols) ∧
    (∃ e, read_data exScoresNoId exInj = Except.error e) :=
  ⟨⟨by decide, by decide⟩,
    c6_missing_identity_fails exScoresNoId exInj (by decide) (by decide)⟩

/-! ## Dataframe lemmas -/

theorem getVal_nil_row (cols : List String) (c : String) :
    getVal cols [] c = Val.null := by
  cases cols <;> rfl

theorem getVal_cons (d : String) (ds : List String) (r : Val) (rs : List Val)
    (c : String) :
    getVal (d :: ds) (r :: rs) c = if d = c then r else getVal ds rs c := by
  by_cases hd : d = c
  · subst hd
    simp [getVal, List.find?_cons]
  · simp [getVal, List.find?_cons, hd]

theorem mapRow_nil (cols : List String) (g : String → Val → Val) :
    mapRow cols g [] = [] := by
  cases cols <;> rfl

theorem mapRow_cons (d : String) (ds : List String) (g : String → Val → Val)
    (r : Val) (rs : List Val) :
    mapRow (d :: ds) g (r :: rs) = g d r :: mapRow ds g rs := rfl

theorem mapRow_length (cols : List String) (g : String → Val → Val) (row : List Val) :
    (mapRow cols g row).length = min cols.length row.length := by
  rw [mapRow, List.length_map, List.length_zip]

theorem mapRow_append (c1 c2 : List String) (g : String → Val → Val)
    (r1 r2 : List Val) (h : r1.length = c1.length) :
    mapRow (c1 ++ c2) g (r1 ++ r2) = mapRow c1 g r1 ++ mapRow c2 g r2 := by
  rw [mapRow, mapRow, mapRow, List.zip_append h.symm, List.map_append]

theorem mapRow_id (cols : List String) (g : String → Val → Val) (row : List Val)
    (h : row.length = cols.length) (hg : ∀ c ∈ cols, ∀ v, g c v = v) :
    mapRow cols g row = row := by
  induction cols generalizing row with
  | nil =>
    cases row with
    | nil => rfl
    | cons r rs => cases h
  | cons d ds ih =>
    cases row with
    | nil => cases h
    | cons r rs =>
      rw [mapRow_cons, hg d (List.mem_cons_self _ _) r,
        ih rs (by simpa using h) (fun c hc v => hg c (List.mem_cons_of_mem _ hc) v)]

theorem getVal_mapRow_ne (cols : List String) (g : String → Val → Val)
    (row : List Val) (c' : String) (hg : ∀ v, g c' v = v) :
    getVal cols (mapRow cols g row) c' = getVal cols row c' := by
  induction cols generalizing row with
  | nil => rfl
  | cons d ds ih =>
    cases row with
    | nil => rw [mapRow_nil]
    | cons r rs =>
      rw [mapRow_cons, getVal_cons, getVal_cons]
      by_cases hd : d = c'
      · subst hd
        rw [if_pos rfl, if_pos rfl, hg]
      · rw [if_neg hd, if_neg hd, ih]

theorem getVal_mapRow_mem (cols : List String) (g : String → Val → Val)
    (row : List Val) (c : String) (h : row.length = cols.length) (hc : c ∈ cols) :
    getVal cols (mapRow cols g row) c = g c (getVal cols row c) := by
  induction cols generalizing row with
  | nil => cases hc
  | cons d ds ih =>
    cases row with
    | nil => cases h
    | cons r rs =>
      rw [mapRow_cons, getVal_cons, getVal_cons]
      by_cases hd : d = c
      · subst hd
        rw [if_pos rfl, if_pos rfl]
      · rw [if_neg hd, if_neg hd]
        exact ih rs (by simpa using h) (by
          rcases List.mem_cons.mp hc with rfl | hc'
          · exact absurd rfl hd
          · exact hc')

theorem getVal_append_singleton (cols : List String) (row : List Val)
    (c c' : String) (v : Val) (h : row.length = cols.length) (hne : c' ≠ c) :
    getVal (cols ++ [c]) (row ++ [v]) c' = getVal cols row c' := by
  induction cols generalizing row with
  | nil =>
    cases row with
    | nil =>
      rw [List.nil_append, List.nil_append, getVal_cons, if_neg (fun hcc => hne hcc.symm)]
    | cons r rs => cases h
  | cons d ds ih =>
    cases row with
    | nil => cases h
    | cons r rs =>
      rw [List.cons_append, List.cons_append, getVal_cons, getVal_cons]
      by_cases hd : d = c'
      · rw [if_pos hd, if_pos hd]
      · rw [if_neg hd, if_neg hd, ih rs (by simpa using h)]

theorem dropNamed_nil (cols : List String) (c : String) :
    dropNamed cols [] c = [] := by
  cases cols <;> rfl

theorem dropNamed_cons (d : String) (ds : List String) (r : Val) (rs : List Val)
    (c : String) :
    dropNamed (d :: ds) (r :: rs) c =
      if d = c then dropNamed ds rs c else r :: dropNamed ds rs c := by
  rw [dropNamed, List.zip_cons_cons, List.filter_cons]
  by_cases hd : d = c
  · rw [if_pos hd]
    simp [hd, dropNamed]
  · rw [if_neg hd]
    simp [hd, dropNamed]

theorem dropNamed_length (cols : List String) (row : List Val) (c : String)
    (h : row.length = cols.length) :
    (dropNamed cols row c).length = (cols.filter (fun x => x != c)).length := by
  induction cols generalizing row with
  | nil =>
    cases row with
    | nil => rfl
    | cons r rs => cases h
  | cons d ds ih =>
    cases row with
    | nil => cases h
    | cons r rs =>
      rw [dropNamed_cons, List.filter_cons]
      by_cases hd : d = c
      · rw [if_pos hd, if_neg (by simp [hd])]
        exact ih rs (by simpa using h)
      · rw [if_neg hd, if_pos (by simp [hd])]
        simp only [List.length_cons]
        rw [ih rs (by simpa using h)]

theorem dropNamed_append (c1 c2 : List String) (r1 r2 : List Val) (c : String)
    (h : r1.length = c1.length) :
    dropNamed (c1 ++ c2) (r1 ++ r2) c = dropNamed c1 r1 c ++ dropNamed c2 r2 c := by
  rw [dropNamed, dropNamed, dropNamed, List.zip_append h.symm, List.filter_append,
    List.map_append]

theorem dropNamed_not_mem (cols : List String) (row : List Val) (c : String)
    (hc : c ∉ cols) (h : row.length = cols.length) :
    dropNamed cols row c = row := by
  induction cols generalizing row with
  | nil =>
    cases row with
    | nil => rfl
    | cons r rs => cases h
  | cons d ds ih =>
    cases row with
    | nil => cases h
    | cons r rs =>
      rw [dropNamed_cons,
        if_neg (fun hd => hc (by rw [← hd]; exact List.mem_cons_self _ _)),
        ih rs (fun hd => hc (List.mem_cons_of_mem _ hd)) (by simpa using h)]

theorem getVal_dropNamed_ne (cols : List String) (row : List Val) (p c' : String)
    (h : row.length = cols.length) (hne : c' ≠ p) :
    getVal (cols.filter (fun x => x != p)) (dropNamed cols row p) c' =
      getVal cols row c' := by
  induction cols generalizing row with
  | nil =>
    cases row with
    | nil => rfl
    | cons r rs => cases h
  | cons d ds ih =>
    cases row with
    | nil => cases h
    | cons r rs =>
      rw [dropNamed_cons, List.filter_cons]
      by_cases hd : d = p
      · rw [if_pos hd, if_neg (by simp [hd]), getVal_cons,
          if_neg (fun hdc => hne (hdc.symm.trans hd))]
        exact ih rs (by simpa using h)
      · rw [if_neg hd, if_pos (by simp [hd]), getVal_cons, getVal_cons]
        by_cases hdc : d = c'
        · rw [if_pos hdc, if_pos hdc]
        · rw [if_neg hdc, if_neg hdc]
          exact ih rs (by simpa using h)

theorem mergeRPart_length (r : DF) (lk rk : String) (rrow : List Val)
    (h : rrow.length = r.cols.length) :
    (mergeRPart r lk rk rrow).length = (mergeRCols r lk rk).length := by
  rw [mergeRPart, mergeRCols]
  split
  · exact dropNamed_length r.cols rrow rk h
  · exact h

theorem mergeLeft_cols (l r : DF) (lk rk : String) :
    (mergeLeft l r lk rk).cols = l.cols ++ mergeRCols r lk rk := rfl

theorem mergeLeft_rows_shape (l r : DF) (lk rk : String) (hwfr : r.wf) :
    ∀ row ∈ (mergeLeft l r lk rk).rows, ∃ lrow ∈ l.rows, ∃ ext,
      row = lrow ++ ext ∧ ext.length = (mergeRCols r lk rk).length := by
  intro row hrow
  obtain ⟨lrow, hl, hmem⟩ := List.mem_flatMap.mp hrow
  cases hms : r.rows.filter
      (fun rrow => getVal r.cols rrow rk == getVal l.cols lrow lk) with
  | nil =>
    rw [hms] at hmem
    rw [List.mem_singleton] at hmem
    exact ⟨lrow, hl, (mergeRCols r lk rk).map (fun _ => Val.null), hmem,
      by rw [List.length_map]⟩
  | cons m ms' =>
    rw [hms] at hmem
    obtain ⟨rrow, hr', heq⟩ := List.mem_map.mp hmem
    have hrmem : rrow ∈ r.rows := by
      have h0 : rrow ∈ r.rows.filter
          (fun rrow => getVal r.cols rrow rk == getVal l.cols lrow lk) := by
        rw [hms]
        exact hr'
      exact (List.mem_filter.mp h0).1
    exact ⟨lrow, hl, mergeRPart r lk rk rrow, heq.symm,
      mergeRPart_length r lk rk rrow (hwfr rrow hrmem)⟩

theorem mergeLeft_retains (l r : DF) (lk rk : String) (hwfr : r.wf) :
    ∀ lrow ∈ l.rows, ∃ ext, ext.length = (mergeRCols r lk rk).length ∧
      lrow ++ ext ∈ (mergeLeft l r lk rk).rows := by
  intro lrow hl
  cases hms : r.rows.filter
      (fun rrow => getVal r.cols rrow rk == getVal l.cols lrow lk) with
  | nil =>
    refine ⟨(mergeRCols r lk rk).map (fun _ => Val.null),
      by rw [List.length_map], ?_⟩
    refine List.mem_flatMap.mpr ⟨lrow, hl, ?_⟩
    rw [hms]
    exact List.mem_singleton.mpr rfl
  | cons m ms' =>
    have hmmem : m ∈ r.rows := by
      have h0 : m ∈ r.rows.filter
          (fun rrow => getVal r.cols rrow rk == getVal l.cols lrow lk) := by
        rw [hms]
        exact List.mem_cons_self _ _
      exact (List.mem_filter.mp h0).1
    refine ⟨mergeRPart r lk rk m, mergeRPart_length r lk rk m (hwfr m hmmem), ?_⟩
    refine List.mem_flatMap.mpr ⟨lrow, hl, ?_⟩
    rw [hms]
    exact List.mem_map.mpr ⟨m, List.mem_cons_self _ _, rfl⟩

theorem mergeLeft_wf (l r : DF) (lk rk : String) (hwfl : l.wf) (hwfr : r.wf) :
    (mergeLeft l r lk rk).wf := by
  intro row hrow
  obtain ⟨lrow, hl, ext, rfl, hlen⟩ := mergeLeft_rows_shape l r lk rk hwfr row hrow
  rw [List.length_append, hwfl lrow hl, hlen, mergeLeft_cols, List.length_append]

theorem fillRow_length_of (cols : List String) (c : String) (d : Val)
    (row : List Val) (h : row.length = cols.length) :
    (fillRow cols c d row).length = cols.length := by
  rw [fillRow, mapRow_length, h, min_self]

theorem fillCol_wf (df : DF) (c : String) (d : Val) (hwf : df.wf) :
    (fillCol df c d).wf := by
  intro row hrow
  obtain ⟨r0, hr0, rfl⟩ := List.mem_map.mp hrow
  exact fillRow_length_of df.cols c d r0 (hwf r0 hr0)

theorem dropCol_wf (df : DF) (c : String) (hwf : df.wf) : (dropCol df c).wf := by
  intro row hrow
  obtain ⟨r0, hr0, rfl⟩ := List.mem_map.mp hrow
  exact dropNamed_length df.cols r0 c (hwf r0 hr0)

theorem fillRow_append (c1 c2 : List String) (c : String) (d : Val)
    (r1 r2 : List Val) (h : r1.length = c1.length) :
    fillRow (c1 ++ c2) c d (r1 ++ r2) = fillRow c1 c d r1 ++ fillRow c2 c d r2 :=
  mapRow_append c1 c2 _ r1 r2 h

theorem fillRow_not_mem (cols : List String) (c : String) (d : Val)
    (row : List Val) (hc : c ∉ cols) (h : row.length = cols.length) :
    fillRow cols c d row = row := by
  rw [fillRow]
  apply mapRow_id cols _ row h
  intro c'' hc'' v
  show (if c'' = c ∧ v = Val.null then d else v) = v
  have hneg : ¬(c'' = c ∧ v = Val.null) := fun hcon => hc (hcon.1 ▸ hc'')
  exact if_neg hneg

theorem getVal_fillRow_ne (cols : List String) (c c' : String) (d : Val)
    (row : List Val) (hne : c' ≠ c) :
    getVal cols (fillRow cols c d row) c' = getVal cols row c' := by
  rw [fillRow]
  apply getVal_mapRow_ne cols _ row c'
  intro v
  show (if c' = c ∧ v = Val.null then d else v) = v
  have hneg : ¬(c' = c ∧ v = Val.null) := fun hcon => hne hcon.1
  exact if_neg hneg

theorem getVal_fillRow_filled (cols : List String) (c : String) (d : Val)
    (row : List Val) (h : row.length = cols.length) (hc : c ∈ cols)
    (hd : d ≠ Val.null) :
    getVal cols (fillRow cols c d row) c ≠ Val.null := by
  rw [fillRow, getVal_mapRow_mem cols _ row c h hc]
  by_cases hv : getVal cols row c = Val.null
  · rw [if_pos ⟨rfl, hv⟩]
    exact hd
  · rw [if_neg (fun hcon => hv hcon.2)]
    exact hv

/-- Behaviour of the shared `read_data` pipeline: the merge succeeds, the
output columns are the left columns followed by the contributed right
columns with every `Player` column removed, every performance row is
retained (extended by joined injury cells), every output row stems from a
performance row, and the `Injury`/`Status` cells of every output row are
non-null after the fills. -/
theorem readDataWith_spec (lk : String) (s i : DF) (hwfS : s.wf) (hwfI : i.wf)
    (hPi : "Player" ∈ i.cols)
    (hInjR : "Injury" ∈ mergeRCols i lk "Player")
    (hStR : "Status" ∈ mergeRCols i lk "Player")
    (hInjS : "Injury" ∉ s.cols) (hStS : "Status" ∉ s.cols)
    (hPfill : "Player" ∈ s.cols ∨ "Player" ∈ mergeRCols i lk "Player") :
    ∃ df, readDataWith lk s i = Except.ok df ∧
      df.cols = s.cols.filter (fun c => c != "Player") ++
        (mergeRCols i lk "Player").filter (fun c => c != "Player") ∧
      (∀ lrow ∈ s.rows, ∃ ext,
        dropNamed s.cols lrow "Player" ++ ext ∈ df.rows) ∧
      (∀ row ∈ df.rows, ∃ lrow ∈ s.rows, ∃ ext,
        row = dropNamed s.cols lrow "Player" ++ ext) ∧
      (∀ row ∈ df.rows, getVal df.cols row "Injury" ≠ Val.null ∧
        getVal df.cols row "Status" ≠ Val.null) := by
  have hmcols : (mergedDF lk s i).cols = s.cols ++ mergeRCols i lk "Player" := rfl
  have hmwf : (mergedDF lk s i).wf := mergeLeft_wf s i lk "Player" hwfS hwfI
  have hfcols : (filledDF lk s i).cols = (mergedDF lk s i).cols := rfl
  have hfwf : (filledDF lk s i).wf :=
    fillCol_wf _ _ _ (fillCol_wf _ _ _ hmwf)
  have hInjM : "Injury" ∈ (mergedDF lk s i).cols := by
    rw [hmcols]
    exact List.mem_append_right _ hInjR
  have hStM : "Status" ∈ (mergedDF lk s i).cols := by
    rw [hmcols]
    exact List.mem_append_right _ hStR
  have hPf : "Player" ∈ (filledDF lk s i).cols := by
    rw [hfcols, hmcols]
    rcases hPfill with h | h
    · exact List.mem_append_left _ h
    · exact List.mem_append_right _ h
  have hdf : readDataWith lk s i =
      Except.ok (dropCol (filledDF lk s i) "Player") := by
    rw [readDataWith, if_pos hPi, if_pos hInjM, if_pos hStM, if_pos hPf]
  have hfrows : (filledDF lk s i).rows = (mergedDF lk s i).rows.map
      (fun mrow => fillRow (mergedDF lk s i).cols "Status" (Val.str "Active")
        (fillRow (mergedDF lk s i).cols "Injury" (Val.str "Healthy") mrow)) := by
    show ((mergedDF lk s i).rows.map
        (fillRow (mergedDF lk s i).cols "Injury" (Val.str "Healthy"))).map
        (fillRow (mergedDF lk s i).cols "Status" (Val.str "Active")) = _
    rw [List.map_map]
    rfl
  have hTrows : (dropCol (filledDF lk s i) "Player").rows =
      (mergedDF lk s i).rows.map (fun mrow =>
        dropNamed (mergedDF lk s i).cols
          (fillRow (mergedDF lk s i).cols "Status" (Val.str "Active")
            (fillRow (mergedDF lk s i).cols "Injury" (Val.str "Healthy") mrow))
          "Player") := by
    show (filledDF lk s i).rows.map
        (fun row => dropNamed (filledDF lk s i).cols row "Player") = _
    rw [hfrows, List.map_map]
    rfl
  have hcompute : ∀ lrow ∈ s.rows, ∀ ext0 : List Val,
      ext0.length = (mergeRCols i lk "Player").length →
      dropNamed (mergedDF lk s i).cols
          (fillRow (mergedDF lk s i).cols "Status" (Val.str "Active")
            (fillRow (mergedDF lk s i).cols "Injury" (Val.str "Healthy")
              (lrow ++ ext0))) "Player" =
        dropNamed s.cols lrow "Player" ++
          dropNamed (mergeRCols i lk "Player")
            (fillRow (mergeRCols i lk "Player") "Status" (Val.str "Active")
              (fillRow (mergeRCols i lk "Player") "Injury" (Val.str "Healthy")
                ext0)) "Player" := by
    intro lrow hl ext0 hlen0
    have hlrow : lrow.length = s.cols.length := hwfS lrow hl
    rw [hmcols, fillRow_append _ _ _ _ _ _ hlrow,
      fillRow_not_mem s.cols "Injury" _ lrow hInjS hlrow,
      fillRow_append _ _ _ _ _ _ hlrow,
      fillRow_not_mem s.cols "Status" _ lrow hStS hlrow,
      dropNamed_append _ _ _ _ _ hlrow]
  refine ⟨dropCol (filledDF lk s i) "Player", hdf, ?_, ?_, ?_, ?_⟩
  · show (filledDF lk s i).cols.filter (fun c' => c' != "Player") = _
    rw [hfcols, hmcols, List.filter_append]
  · intro lrow hl
    obtain ⟨ext0, hlen0, hmem⟩ := mergeLeft_retains s i lk "Player" hwfI lrow hl
    refine ⟨dropNamed (mergeRCols i lk "Player")
      (fillRow (mergeRCols i lk "Player") "Status" (Val.str "Active")
        (fillRow (mergeRCols i lk "Player") "Injury" (Val.str "Healthy")
          ext0)) "Player", ?_⟩
    rw [hTrows]
    exact List.mem_map.mpr ⟨lrow ++ ext0, hmem,
      hcompute lrow hl ext0 hlen0⟩
  · intro row hrow
    rw [hTrows] at hrow
    obtain ⟨mrow, hm, rfl⟩ := List.mem_map.mp hrow
    obtain ⟨lrow, hl, ext0, rfl, hlen0⟩ :=
      mergeLeft_rows_shape s i lk "Player" hwfI mrow hm
    exact ⟨lrow, hl, _, hcompute lrow hl ext0 hlen0⟩
  · intro row hrow
    obtain ⟨frow, hf, rfl⟩ := List.mem_map.mp hrow
    have hflen : frow.length = (mergedDF lk s i).cols.length := hfwf frow hf
    have hgd : ∀ c' : String, c' ≠ "Player" →
        getVal (dropCol (filledDF lk s i) "Player").cols
          (dropNamed (filledDF lk s i).cols frow "Player") c' =
        getVal (mergedDF lk s i).cols frow c' := by
      intro c' hc'
      exact getVal_dropNamed_ne (mergedDF lk s i).cols frow "Player" c' hflen hc'
    rw [hfrows] at hf
    obtain ⟨mrow, hm, rfl⟩ := List.mem_map.mp hf
    have hmlen : mrow.length = (mergedDF lk s i).cols.length := hmwf mrow hm
    have hilen : (fillRow (mergedDF lk s i).cols "Injury" (Val.str "Healthy")
        mrow).length = (mergedDF lk s i).cols.length :=
      fillRow_length_of _ _ _ _ hmlen
    constructor
    · rw [hgd "Injury" (by decide),
        getVal_fillRow_ne _ _ _ _ _ (by decide)]
      exact getVal_fillRow_filled _ _ _ _ hmlen hInjM (by simp)
    · rw [hgd "Status" (by decide)]
      exact getVal_fillRow_filled _ _ _ _ hilen hStM (by simp)

/-- C3 counterexample: with a performance table whose identity column is
`Player` (no `Player_Name`), the merge succeeds but the output has *no*
`Player` column — the identity column is dropped, contradicting the claim
that it is still present. -/
theorem c3_counterexample :
    okCols (read_data exScoresP exInj) =
      ["Regular", "Projection", "Injury", "Status"] ∧
    "Player" ∉ okCols (read_data exScoresP exInj) := by
  constructor
  · decide
  · decide

/-- C3 (amended): the merge is a left join that retains every performance
row and attaches injury cells; null `Injury`/`Status` are filled; the
`Player` column is dropped whenever one remains after the merge — so with
identity column `Player_Name` that identity survives and only the
injury-side key disappears, while with identity column `Player` the
(single, identity) `Player` column is dropped from the output. -/
theorem c3_merge_left_join_drop (s i : DF) (hwfS : s.wf) (hwfI : i.wf)
    (hPi : "Player" ∈ i.cols) (hInj : "Injury" ∈ i.cols)
    (hSt : "Status" ∈ i.cols) :
    (("Player_Name" ∈ s.cols ∧ ∀ c ∈ i.cols, c ∉ s.cols) →
      ∃ df, read_data s i = Except.ok df ∧
        df.cols = s.cols ++ i.cols.filter (fun c => c != "Player") ∧
        "Player_Name" ∈ df.cols ∧ "Player" ∉ df.cols ∧
        (∀ lrow ∈ s.rows, ∃ ext, lrow ++ ext ∈ df.rows) ∧
        (∀ row ∈ df.rows, ∃ lrow ∈ s.rows, ∃ ext, row = lrow ++ ext) ∧
        (∀ row ∈ df.rows, getVal df.cols row "Injury" ≠ Val.null ∧
          getVal df.cols row "Status" ≠ Val.null)) ∧
    (("Player_Name" ∉ s.cols ∧ "Player" ∈ s.cols ∧
        (∀ c ∈ i.cols, c ≠ "Player" → c ∉ s.cols)) →
      ∃ df, read_data s i = Except.ok df ∧
        df.cols = s.cols.filter (fun c => c != "Player") ++
          i.cols.filter (fun c => c != "Player") ∧
        "Player" ∉ df.cols ∧
        (∀ lrow ∈ s.rows, ∃ ext,
          dropNamed s.cols lrow "Player" ++ ext ∈ df.rows) ∧
        (∀ row ∈ df.rows, ∃ lrow ∈ s.rows, ∃ ext,
          row = dropNamed s.cols lrow "Player" ++ ext) ∧
        (∀ row ∈ df.rows, getVal df.cols row "Injury" ≠ Val.null ∧
          getVal df.cols row "Status" ≠ Val.null)) := by
  have hPneP : ∀ l : List String, "Player" ∉ l.filter (fun c => c != "Player") := by
    intro l hmem
    have h0 := (List.mem_filter.mp hmem).2
    simp at h0
  constructor
  · rintro ⟨hPN, hdisj⟩
    have hrc : mergeRCols i "Player_Name" "Player" = i.cols := by
      rw [mergeRCols, if_neg (by decide)]
    have hPs : "Player" ∉ s.cols := hdisj "Player" hPi
    have hsfilter : s.cols.filter (fun c => c != "Player") = s.cols := by
      apply List.filter_eq_self.mpr
      intro c hc
      simp only [bne_iff_ne, ne_eq, decide_eq_true_eq]
      exact fun h => hPs (h ▸ hc)
    obtain ⟨df, hok, hcols, hret, hcon, hfill⟩ :=
      readDataWith_spec "Player_Name" s i hwfS hwfI hPi
        (by rw [hrc]; exact hInj) (by rw [hrc]; exact hSt)
        (hdisj _ hInj) (hdisj _ hSt) (Or.inr (by rw [hrc]; exact hPi))
    rw [hrc] at hcols
    rw [hsfilter] at hcols
    have hread : read_data s i = readDataWith "Player_Name" s i := by
      rw [read_data, if_pos hPN]
    refine ⟨df, by rw [hread]; exact hok, hcols, ?_, ?_, ?_, ?_, hfill⟩
    · rw [hcols]
      exact List.mem_append_left _ hPN
    · rw [hcols]
      intro hmem
      rcases List.mem_append.mp hmem with h | h
      · exact hPs h
      · exact hPneP i.cols h
    · intro lrow hl
      obtain ⟨ext, hmem⟩ := hret lrow hl
      rw [dropNamed_not_mem s.cols lrow "Player" hPs (hwfS lrow hl)] at hmem
      exact ⟨ext, hmem⟩
    · intro row hrow
      obtain ⟨lrow, hl, ext, heq⟩ := hcon row hrow
      rw [dropNamed_not_mem s.cols lrow "Player" hPs (hwfS lrow hl)] at heq
      exact ⟨lrow, hl, ext, heq⟩
  · rintro ⟨hPNn, hPs, hdisj⟩
    have hrc : mergeRCols i "Player" "Player" =
        i.cols.filter (fun c => c != "Player") := by
      rw [mergeRCols, if_pos rfl]
    have hffilter : (i.cols.filter (fun c => c != "Player")).filter
        (fun c => c != "Player") = i.cols.filter (fun c => c != "Player") :=
      List.filter_eq_self.mpr (fun c hc => (List.mem_filter.mp hc).2)
    obtain ⟨df, hok, hcols, hret, hcon, hfill⟩ :=
      readDataWith_spec "Player" s i hwfS hwfI hPi
        (by rw [hrc]; exact List.mem_filter.mpr ⟨hInj, by decide⟩)
        (by rw [hrc]; exact List.mem_filter.mpr ⟨hSt, by decide⟩)
        (hdisj _ hInj (by decide)) (hdisj _ hSt (by decide)) (Or.inl hPs)
    rw [hrc, hffilter] at hcols
    have hread : read_data s i = readDataWith "Player" s i := by
      rw [read_data, if_neg hPNn, if_pos hPs]
    refine ⟨df, by rw [hread]; exact hok, hcols, ?_, hret, hcon, hfill⟩
    rw [hcols]
    intro hmem
    rcases List.mem_append.mp hmem with h | h
    · exact hPneP s.cols h
    · exact hPneP i.cols h

/-- C3 witness: the amended theorem applied to the concrete
`Player`-keyed performance table. -/
theorem c3_witness :
    (exScoresP.wf ∧ exInj.wf ∧ "Player" ∈ exInj.cols ∧
     "Injury" ∈ exInj.cols ∧ "Status" ∈ exInj.cols) ∧
    ((("Player_Name" ∈ exScoresP.cols ∧ ∀ c ∈ exInj.cols, c ∉ exScoresP.cols) →
      ∃ df, read_data exScoresP exInj = Except.ok df ∧
        df.cols = exScoresP.cols ++ exInj.cols.filter (fun c => c != "Player") ∧
        "Player_Name" ∈ df.cols ∧ "Player" ∉ df.cols ∧
        (∀ lrow ∈ exScoresP.rows, ∃ ext, lrow ++ ext ∈ df.rows) ∧
        (∀ row ∈ df.rows, ∃ lrow ∈ exScoresP.rows, ∃ ext, row = lrow ++ ext) ∧
        (∀ row ∈ df.rows, getVal df.cols row "Injury" ≠ Val.null ∧
          getVal df.cols row "Status" ≠ Val.null)) ∧
    (("Player_Name" ∉ exScoresP.cols ∧ "Player" ∈ exScoresP.cols ∧
        (∀ c ∈ exInj.cols, c ≠ "Player" → c ∉ exScoresP.cols)) →
      ∃ df, read_data exScoresP exInj = Except.ok df ∧
        df.cols = exScoresP.cols.filter (fun c => c != "Player") ++
          exInj.cols.filter (fun c => c != "Player") ∧
        "Player" ∉ df.cols ∧
        (∀ lrow ∈ exScoresP.rows, ∃ ext,
          dropNamed exScoresP.cols lrow "Player" ++ ext ∈ df.rows) ∧
        (∀ row ∈ df.rows, ∃ lrow ∈ exScoresP.rows, ∃ ext,
          row = dropNamed exScoresP.cols lrow "Player" ++ ext) ∧
        (∀ row ∈ df.rows, getVal df.cols row "Injury" ≠ Val.null ∧
          getVal df.cols row "Status" ≠ Val.null))) :=
  ⟨⟨by decide, by decide, by decide, by decide, by decide⟩,
   c3_merge_left_join_drop exScoresP exInj (by decide) (by decide)
     (by decide) (by decide) (by decide)⟩

theorem map_zip_eq (rows : List (List Val)) (vals : List Val)
    (h : vals.length = rows.length) (f : List Val → Val → List Val)
    (gv1 gv2 : List Val → Val)
    (hpt : ∀ r ∈ rows, ∀ v, gv1 (f r v) = gv2 r) :
    ((rows.zip vals).map (fun p => f p.1 p.2)).map gv1 = rows.map gv2 := by
  induction rows generalizing vals with
  | nil => rfl
  | cons r rs ih =>
    cases vals with
    | nil => cases h
    | cons v vs =>
      rw [List.zip_cons_cons, List.map_cons, List.map_cons, List.map_cons]
      rw [hpt r (List.mem_cons_self _ _) v,
        ih vs (by simpa using h) (fun r' hr' v' => hpt r' (List.mem_cons_of_mem _ hr') v')]

theorem colVals_setCol_ne (df : DF) (c : String) (vals : List Val) (c' : String)
    (hne : c' ≠ c) (hwf : df.wf) (hlen : vals.length = df.rows.length) :
    colVals (setCol df c vals) c' = colVals df c' := by
  rw [setCol]
  split
  · show ((df.rows.zip vals).map (fun p =>
        mapRow df.cols (fun c'' v => if c'' = c then p.2 else v) p.1)).map
        (fun row => getVal df.cols row c') = df.rows.map (fun row => getVal df.cols row c')
    exact map_zip_eq df.rows vals hlen
      (fun r v => mapRow df.cols (fun c'' w => if c'' = c then v else w) r)
      (fun row => getVal df.cols row c')
      (fun row => getVal df.cols row c')
      (fun r _ v => getVal_mapRow_ne df.cols _ r c' (fun w => if_neg hne))
  · show ((df.rows.zip vals).map (fun p => p.1 ++ [p.2])).map
        (fun row => getVal (df.cols ++ [c]) row c') =
      df.rows.map (fun row => getVal df.cols row c')
    exact map_zip_eq df.rows vals hlen
      (fun r v => r ++ [v])
      (fun row => getVal (df.cols ++ [c]) row c')
      (fun row => getVal df.cols row c')
      (fun r hr v => getVal_append_singleton df.cols r c c' v (hwf r hr) hne)

theorem mem_setCol_cols (df : DF) (c : String) (vals : List Val) (c'' : String)
    (h : c'' ∈ (setCol df c vals).cols) : c'' ∈ df.cols ∨ c'' = c := by
  rw [setCol] at h
  split at h
  · exact Or.inl h
  · rcases List.mem_append.mp h with h' | h'
    · exact Or.inl h'
    · exact Or.inr (List.mem_singleton.mp h')

theorem wf_setCol (df : DF) (c : String) (vals : List Val)
    (hwf : df.wf) : (setCol df c vals).wf := by
  rw [setCol]
  split
  · intro row hrow
    obtain ⟨p, hp, rfl⟩ := List.mem_map.mp hrow
    have hp1 : p.1 ∈ df.rows := (List.of_mem_zip hp).1
    show (mapRow df.cols _ p.1).length = df.cols.length
    rw [mapRow_length, hwf p.1 hp1, min_self]
  · intro row hrow
    obtain ⟨p, hp, rfl⟩ := List.mem_map.mp hrow
    have hp1 : p.1 ∈ df.rows := (List.of_mem_zip hp).1
    show (p.1 ++ [p.2]).length = (df.cols ++ [c]).length
    rw [List.length_append, List.length_append, hwf p.1 hp1]
    rfl

/-- C8: computing and displaying rankings writes only the `Total_Score`
column and the per-week display column onto the session table — the
`Player_Name`, `Regular`, `Projection`, `Injury`, and `Status` values of
every row are unchanged, and every column of the mutated table is either
an original column or one of the two derived score columns. -/
theorem c8_rankings_frame (week : ℤ) (data : DF) (hwf : data.wf) :
    (∀ c ∈ (["Player_Name", "Regular", "Projection", "Injury", "Status"] :
        List String),
      colVals (display_player_rankings_df week data).1 c = colVals data c) ∧
    (∀ c' ∈ (display_player_rankings_df week data).1.cols,
      c' ∈ data.cols ∨ c' = "Total_Score" ∨ c' = totalScoreName week) := by
  have h1 : (display_player_rankings_df week data).1 = rankingsData2 week data := rfl
  have hlen1 : (rankingsScores week data).length = data.rows.length :=
    List.length_map _ _
  have hwf1 : (rankingsData1 week data).wf := wf_setCol _ _ _ hwf
  constructor
  · intro c hc
    have hc1 : c ≠ "Total_Score" := by fin_cases hc <;> decide
    have hc2 : c ≠ totalScoreName week := by
      have hlong : 19 ≤ (totalScoreName week).length := by
        rw [totalScoreName, String.length_append, String.length_append]
        have h18 : ("Total_Score (Week " : String).length = 18 := rfl
        have hp1 : (")" : String).length = 1 := rfl
        rw [h18, hp1]
        omega
      have hshort : c.length ≤ 11 := by fin_cases hc <;> decide
      intro he
      rw [he] at hshort
      omega
    rw [h1, rankingsData2,
      colVals_setCol_ne _ _ _ c hc2 hwf1 (List.length_map _ _),
      rankingsData1, colVals_setCol_ne _ _ _ c hc1 hwf hlen1]
  · intro c' hc'
    rw [h1, rankingsData2] at hc'
    rcases mem_setCol_cols _ _ _ _ hc' with h | h
    · rw [rankingsData1] at h
      rcases mem_setCol_cols _ _ _ _ h with h' | h'
      · exact Or.inl h'
      · exact Or.inr (Or.inl h')
    · exact Or.inr (Or.inr h)

/-- C8 witness: the frame property at a concrete merged table. -/
theorem c8_witness :
    exMerged.wf ∧
    ((∀ c ∈ (["Player_Name", "Regular", "Projection", "Injury", "Status"] :
        List String),
      colVals (display_player_rankings_df 5 exMerged).1 c = colVals exMerged c) ∧
    (∀ c' ∈ (display_player_rankings_df 5 exMerged).1.cols,
      c' ∈ exMerged.cols ∨ c' = "Total_Score" ∨ c' = totalScoreName 5)) :=
  ⟨by decide, c8_rankings_frame 5 exMerged (by decide)⟩
